import Mathlib

/-!
Verification development for the flow-track nudge scheduling and delivery
engine.  The definitions below are a shallow embedding of the TypeScript
source (src/app/api/cron/nudges/route.ts, src/app/api/cron/reports/route.ts,
the acknowledgement endpoint, and the SQL schema in
src/supabase/migrations/20251210063209_notifications_nudges_reports_schema.sql).

Modelling conventions:
* Instants are `Int` milliseconds since the Unix epoch (the unit used by
  JavaScript `Date.now()` and luxon `toMillis()`); calendar dates are `Int`
  day numbers since 1970-01-01 (the UTC calendar date encoded by ISO date
  strings such as `task.due_date`).
* The relational store is a `List` of rows; Supabase query-builder calls
  (`.eq`, `.lte`, `.is`, `.maybeSingle`, `.insert`, `.update`) become list
  filtering, searching, appending and mapping.
* The ambient wall clock read by the source through `DateTime.now()`,
  `new Date()` and `Date.now()` is threaded as an explicit `now` argument of
  the embedded functions; the server clock is taken to run in the UTC zone.
* The IANA time-zone database consulted by luxon is embedded for the zones
  exercised by the specification (`UTC` and `America/New_York`, with the
  statutory United States daylight-saving rule); every other zone name is
  treated as unresolvable, which the source observes as `isValid = false`.
-/

/-! ## Civil calendar arithmetic (days since 1970-01-01, proleptic Gregorian) -/

/-- Day number since 1970-01-01 of the civil date (y, m, d); the standard
era-based conversion used by civil-time libraries. -/
def daysFromCivil (y m d : Int) : Int :=
  let y2 := if m ≤ 2 then y - 1 else y
  let era := y2.ediv 400
  let yoe := y2 - era * 400
  let mp := (m + 9).emod 12
  let doy := (153 * mp + 2).ediv 5 + d - 1
  let doe := yoe * 365 + yoe.ediv 4 - yoe.ediv 100 + doy
  era * 146097 + doe - 719468

/-- Civil date (y, m, d) of a day number since 1970-01-01. -/
def civilFromDays (z : Int) : Int × Int × Int :=
  let z2 := z + 719468
  let era := z2.ediv 146097
  let doe := z2 - era * 146097
  let yoe := (doe - doe.ediv 1460 + doe.ediv 36524 - doe.ediv 146096).ediv 365
  let y := yoe + era * 400
  let doy := doe - (365 * yoe + yoe.ediv 4 - yoe.ediv 100)
  let mp := (5 * doy + 2).ediv 153
  let d := doy - (153 * mp + 2).ediv 5 + 1
  let m := if mp < 10 then mp + 3 else mp - 9
  (if m ≤ 2 then y + 1 else y, m, d)

/-- Calendar year containing a given day number. -/
def yearOfDay (z : Int) : Int := (civilFromDays z).1

/-- Day of week of a day number, Sunday = 0 (1970-01-01 was a Thursday). -/
def weekdayOfDay (z : Int) : Int := (z + 4).emod 7

/-- Day number of the second Sunday of March of a year (US DST start). -/
def secondSundayMarch (y : Int) : Int :=
  let m1 := daysFromCivil y 3 1
  m1 + (7 - weekdayOfDay m1).emod 7 + 7

/-- Day number of the first Sunday of November of a year (US DST end). -/
def firstSundayNovember (y : Int) : Int :=
  let n1 := daysFromCivil y 11 1
  n1 + (7 - weekdayOfDay n1).emod 7

/-! ## Time zones, as luxon resolves them from the IANA database -/

/-- America/New_York daylight saving is in effect from the second Sunday of
March 02:00 local to the first Sunday of November 02:00 local.  Argument is
a local wall-clock time in minutes since the epoch. -/
def nyInDstLocal (lm : Int) : Bool :=
  let y := yearOfDay (lm.ediv 1440)
  decide (secondSundayMarch y * 1440 + 120 ≤ lm) &&
    decide (lm < firstSundayNovember y * 1440 + 120)

/-- America/New_York daylight saving in effect at a UTC instant given in
minutes since the epoch (02:00 EST = 07:00 UTC, 02:00 EDT = 06:00 UTC). -/
def nyInDstUtc (um : Int) : Bool :=
  let y := yearOfDay (um.ediv 1440)
  decide (secondSundayMarch y * 1440 + 120 + 300 ≤ um) &&
    decide (um < firstSundayNovember y * 1440 + 120 + 240)

/-- A time zone, characterised by the signed offset (minutes to add to UTC to
obtain local wall time) both as a function of a UTC instant (used by luxon
`setZone` when reading the clock) and as a function of a local wall time
(used by luxon `fromObject` when interpreting a wall-clock slot).  Both
arguments are in minutes since the epoch. -/
structure ZoneRule where
  utcOffsetMin : Int → Int
  localOffsetMin : Int → Int

/-- The UTC zone: offset 0 always. -/
def utcZone : ZoneRule := ⟨fun _ => 0, fun _ => 0⟩

/-- America/New_York: UTC-4 during daylight saving, UTC-5 otherwise. -/
def nyZone : ZoneRule :=
  ⟨fun um => if nyInDstUtc um then -240 else -300,
   fun lm => if nyInDstLocal lm then -240 else -300⟩

/-- The zone table luxon resolves IANA names against, restricted to the zones
exercised by the specification; any other name is unresolvable and the
source observes `DateTime.isValid = false` for it. -/
def lookupZone (s : String) : Option ZoneRule :=
  if s = "UTC" then some utcZone
  else if s = "America/New_York" then some nyZone
  else none

/-! ## Time Resolver: parseTimeToUTCISO (nudges route, lines 54-68) -/

/-- Numeric value of a decimal digit character. -/
def digitVal (c : Char) : Int := (c.toNat : Int) - 48

/-- Two-digit hour per the alternation `[01]\d|2[0-3]` of the source regex. -/
def hourTwoDigit (a b : Char) : Option Int :=
  if (a = '0' ∨ a = '1') ∧ b.isDigit then some (digitVal a * 10 + digitVal b)
  else if a = '2' ∧ (b = '0' ∨ b = '1' ∨ b = '2' ∨ b = '3') then
    some (20 + digitVal b)
  else none

/-- Two-digit minute per `[0-5]\d` of the source regex. -/
def minuteTwoDigit (a b : Char) : Option Int :=
  if ('0' ≤ a ∧ a ≤ '5') ∧ b.isDigit then some (digitVal a * 10 + digitVal b)
  else none

/-- The anchored regex `^([01]?\d|2[0-3]):([0-5]\d)$` of the source: hour is
one digit (0-9) or two digits (00-23), minute is exactly two digits. -/
def parseHHMM (s : String) : Option (Int × Int) :=
  match s.toList with
  | [h1, c, m1, m2] =>
    if c = ':' ∧ h1.isDigit then
      match minuteTwoDigit m1 m2 with
      | some mm => some (digitVal h1, mm)
      | none => none
    else none
  | [a, b, c, m1, m2] =>
    if c = ':' then
      match hourTwoDigit a b, minuteTwoDigit m1 m2 with
      | some hh, some mm => some (hh, mm)
      | _, _ => none
    else none
  | _ => none

/-- Embedding of `parseTimeToUTCISO(localTime, tz)` (nudges route, lines
54-68).  The source reads the ambient wall clock through `DateTime.now()`;
that reading is threaded here as the explicit argument `now` (milliseconds
since the epoch).  Returns the resolved UTC instant in milliseconds, or
`none` where the source returns `null` (bad format or unresolvable zone).
The empty zone string falls back to `"UTC"` (JavaScript `tz || "UTC"`). -/
def parseTimeToUTCISO (localTime tz : String) (now : Int) : Option Int :=
  match parseHHMM localTime with
  | none => none
  | some (h, m) =>
    match lookupZone (if tz = "" then "UTC" else tz) with
    | none => none
    | some z =>
      let localNowMs := now + z.utcOffsetMin (now.ediv 60000) * 60000
      let d := localNowMs.ediv 86400000
      let schedMin := d * 1440 + h * 60 + m
      some ((schedMin - z.localOffsetMin schedMin) * 60000)

/-- The local calendar day (day number) that `parseTimeToUTCISO` derives from
the ambient clock reading, per zone; `none` when the zone is unresolvable. -/
def localDayOf (tz : String) (now : Int) : Option Int :=
  match lookupZone (if tz = "" then "UTC" else tz) with
  | none => none
  | some z => some ((now + z.utcOffsetMin (now.ediv 60000) * 60000).ediv 86400000)

/-- UTC calendar day of an instant in milliseconds. -/
def utcDayOf (nowMs : Int) : Int := nowMs.ediv 86400000

/-- Local calendar day in America/New_York of a UTC instant in milliseconds. -/
def nyLocalDay (now : Int) : Int :=
  (now + nyZone.utcOffsetMin (now.ediv 60000) * 60000).ediv 86400000

/-! ## Task data and the snapshot classification (nudges route, lines 145-174;
reports route, lines 109-142) -/

/-- The task status enum `task_status` of the schema. -/
inductive TaskStatus where
  | todo
  | inProgress
  | done
deriving DecidableEq

/-- A row of the `tasks` table (the UI source aliases it TaskRow), in the fields the cron routes read.
`due_date` is a calendar date (day number), `updated_at` a timestamptz in
milliseconds. -/
structure TaskRow where
  id : String
  owner_id : String
  title : String
  due_date : Int
  status : TaskStatus
  updated_at : Int
deriving DecidableEq

/-- Millisecond instant of `dueDateT23:59:59Z`, the due end-of-day cutoff the
source builds with `DateTime.fromISO` / `new Date`. -/
def endOfDueDayMs (d : Int) : Int := d * 86400000 + 86399000

/-- Millisecond instant of `todayT23:59:59.999Z`, the `todayEnd` value of both
cron routes (note the extra 999 milliseconds relative to `endOfDueDayMs`). -/
def todayEndMs (d : Int) : Int := d * 86400000 + 86399999

/-- A task is overdue for the cron routes: status not done and due end-of-day
strictly before the current instant (nudges route line 150, reports route
line 133). -/
def isOverdueCron (nowMs : Int) (t : TaskRow) : Bool :=
  decide (t.status ≠ TaskStatus.done) && decide (endOfDueDayMs t.due_date < nowMs)

/-- A task is due today for the nudges route: status not done and due date
equal to the current UTC date (line 153). -/
def isDueTodayCron (nowMs : Int) (t : TaskRow) : Bool :=
  decide (t.status ≠ TaskStatus.done) && decide (t.due_date = utcDayOf nowMs)

/-- A task is due soon for the nudges route (lines 154-159): status not done
and `Math.floor((due - todayEnd) / 86400000)` between 0 and 1, where `due` is
the due date at 23:59:59 UTC and `todayEnd` is today at 23:59:59.999 UTC. -/
def isDueSoonCron (nowMs : Int) (t : TaskRow) : Bool :=
  if t.status = TaskStatus.done then false
  else
    let diffDays := (endOfDueDayMs t.due_date - todayEndMs (utcDayOf nowMs)).ediv 86400000
    decide (0 ≤ diffDays) && decide (diffDays ≤ 1)

/-- Due-soon as the specification words it: status not done,
`0 ≤ floor((due_end_of_day - end_of_today) / 1 day) ≤ 1` with both bounds
normalised to the 23:59:59 end-of-day, and not already overdue.  This is the
comparison definition for the refinement check of the snapshot classifier;
everything else in this file is translated from the source. -/
def dueSoonSpec (nowMs : Int) (t : TaskRow) : Bool :=
  decide (t.status ≠ TaskStatus.done) &&
    (let diffDays := (endOfDueDayMs t.due_date - endOfDueDayMs (utcDayOf nowMs)).ediv 86400000
     decide (0 ≤ diffDays) && decide (diffDays ≤ 1)) &&
    !(isOverdueCron nowMs t)

/-- The counts block of the snapshot payload (nudges route, lines 161-168).
The source key `open` is rendered `openTasks` (`open` is reserved here). -/
structure SnapshotCounts where
  overdue : Nat
  dueToday : Nat
  dueSoon : Nat
  openTasks : Nat
  done : Nat
deriving DecidableEq

/-- The snapshot payload: counts plus top-3 samples by (id, title[, due]) as
built in lines 161-174 of the nudges route. -/
structure Snapshot where
  counts : SnapshotCounts
  sampleOverdue : List (String × String × Int)
  sampleDueToday : List (String × String)
  sampleDueSoon : List (String × String × Int)
deriving DecidableEq

/-- Build the snapshot of a user's tasks at an instant (nudges route, lines
145-174). -/
def buildSnapshot (nowMs : Int) (tasks : List TaskRow) : Snapshot :=
  let overdue := tasks.filter (isOverdueCron nowMs)
  let dueToday := tasks.filter (isDueTodayCron nowMs)
  let dueSoon := tasks.filter (isDueSoonCron nowMs)
  { counts :=
      { overdue := overdue.length
        dueToday := dueToday.length
        dueSoon := dueSoon.length
        openTasks := (tasks.filter (fun t => decide (t.status ≠ TaskStatus.done))).length
        done := (tasks.filter (fun t => decide (t.status = TaskStatus.done))).length }
    sampleOverdue := (overdue.take 3).map (fun t => (t.id, t.title, t.due_date))
    sampleDueToday := (dueToday.take 3).map (fun t => (t.id, t.title))
    sampleDueSoon := (dueSoon.take 3).map (fun t => (t.id, t.title, t.due_date)) }

/-! ## ReminderInstance rows and the Schedule Materializer
(nudges route, lines 90-124; `nudges` table of the schema, lines 27-37 -
primary key on `id` only, no unique constraint on (user_id, scheduled_at)) -/

/-- The `nudge_status` enum of the schema. -/
inductive NudgeStatus where
  | scheduled
  | sent
  | failed
  | acknowledged
deriving DecidableEq

/-- A row of the `nudges` table (a ReminderInstance).  `id` is a uuid primary
key generated by the database. -/
structure Nudge where
  id : String
  user_id : String
  scheduled_at : Int
  sent_at : Option Int
  acknowledged_at : Option Int
  status : NudgeStatus
  payload : Option Snapshot
deriving DecidableEq

/-- The row the materializer inserts (lines 112-116): status `scheduled`, all
nullable fields null.  The database-generated uuid is opaque to the engine
and left blank; no claim about materialization reads it. -/
def mkNudge (u : String) (t : Int) : Nudge :=
  { id := ""
    user_id := u
    scheduled_at := t
    sent_at := none
    acknowledged_at := none
    status := NudgeStatus.scheduled
    payload := none }

/-- The existence probe of the materializer (lines 104-109): select a row
with this `user_id` and `scheduled_at`. -/
def existsNudge (s : List Nudge) (u : String) (t : Int) : Bool :=
  s.any (fun n => decide (n.user_id = u) && decide (n.scheduled_at = t))

/-- Number of rows with the given (user, scheduled_at) dedup key. -/
def countKey (s : List Nudge) (u : String) (t : Int) : Nat :=
  (s.filter (fun n => decide (n.user_id = u) && decide (n.scheduled_at = t))).length

/-- Number of ReminderInstance rows belonging to a user. -/
def userRows (s : List Nudge) (u : String) : Nat :=
  (s.filter (fun n => decide (n.user_id = u))).length

/-- Truthiness of the `exists` value of the materializer's check (lines
104-110): `.maybeSingle()` returns the row when exactly one matches; with no
matching row `data` is null, and with two or more rows `maybeSingle` reports
an error whose `data` is null as well - the route discards the error - so
the check is truthy exactly when one row matches.  On a store where the key
has at most one row this coincides with plain existence; it differs only on
a store already corrupted with duplicate keys. -/
def maybeSingleSees (s : List Nudge) (u : String) (t : Int) : Bool :=
  decide (countKey s u t = 1)

/-- One per-slot closure of the ensure loop (lines 98-123), as an agent: the
resolved instant fixed at spawn (lines 101-102; `none` when the slot does
not resolve, making the closure return at once), the recorded outcome of its
existence check, and a completion flag. -/
structure EnsureAgent where
  res : Option Int
  seen : Option Bool
  done : Bool
deriving DecidableEq

/-- The agents one invocation spawns for a user: one per configured slot
(lines 98-122), none having run yet. -/
def initEnsureAgents (now : Int) (tz : String) (times : List String) :
    List EnsureAgent :=
  times.map (fun sl =>
    { res := parseTimeToUTCISO sl tz now, seen := none, done := false })

/-- One storage round-trip of one closure.  An unresolved slot completes
with no effect (line 102).  Otherwise the first step performs the
`maybeSingle` check and records its outcome (lines 104-110); the second
step inserts exactly when the recorded check saw nothing (lines 111-116)
- the insert is unconditional at the storage layer, the schema having no
unique constraint on (user_id, scheduled_at).  A completed agent does
nothing further. -/
def ensureAgentStep (u : String) (ag : EnsureAgent) (st : List Nudge) :
    EnsureAgent × List Nudge :=
  match ag.res with
  | none => ({ ag with done := true }, st)
  | some t =>
    match ag.seen, ag.done with
    | none, _ => ({ ag with seen := some (maybeSingleSees st u t) }, st)
    | some e, false =>
      ({ ag with done := true }, if e then st else st ++ [mkNudge u t])
    | some _, true => (ag, st)

/-- Let the agent at index `k` take its next storage round-trip (an index
outside the agent list does nothing). -/
def ensureRunStep (u : String) (st8 : List EnsureAgent × List Nudge)
    (k : Nat) : List EnsureAgent × List Nudge :=
  match st8.1[k]? with
  | none => st8
  | some ag =>
    let r := ensureAgentStep u ag st8.2
    (st8.1.set k r.1, r.2)

/-- One user's materialization invocation (`ensureToday`, lines 91-124): the
route pushes every per-slot check-then-insert closure into one array and
awaits a single `Promise.all`, so the closures' storage operations
interleave arbitrarily.  `sched` is the order in which the per-slot
round-trips land; a schedule after which every agent is done models a
completed `Promise.all`.  The caller normalises the timezone string before
the call (line 96), so `tz` is the post-normalisation zone name; a disabled
config spawns no closures at all (line 94). -/
def ensureToday (now : Int) (u tz : String) (times : List String)
    (sched : List Nat) (s : List Nudge) : List EnsureAgent × List Nudge :=
  sched.foldl (ensureRunStep u) (initEnsureAgents now tz times, s)

/-- An agent has performed its insert: it completed after a check that saw
no row. -/
def agentInserted (ag : EnsureAgent) : Bool :=
  ag.done && (ag.seen == some false)

/-- Reachable-state property of one agent relative to the invocation's
initial store `s` and the current store `st`: an unresolved agent never ran
its check; a resolved agent is unchecked only before completing, a recorded
check outcome is the `maybeSingle` verdict on the initial store (only the
agent itself ever writes its key within the invocation, and its check
precedes its insert), and the agent's key count has grown by exactly its
own insert. -/
def agentOK (s st : List Nudge) (u : String) (ag : EnsureAgent) : Prop :=
  match ag.res with
  | none => ag.seen = none
  | some t =>
      (ag.seen = none → ag.done = false)
      ∧ (∀ b, ag.seen = some b → b = maybeSingleSees s u t)
      ∧ countKey st u t = countKey s u t + (if agentInserted ag then 1 else 0)

/-- Inductive invariant of one materialization invocation, for slots whose
resolved instants are pairwise distinct: the agents still carry the spawn
resolutions `RL`, each agent satisfies its local property, keys outside the
user's resolved instants are untouched, and the user's row count has grown
by exactly the inserts performed. -/
def ensureInv (s : List Nudge) (u : String) (RL : List (Option Int))
    (st8 : List EnsureAgent × List Nudge) : Prop :=
  st8.1.map (fun ag => ag.res) = RL
  ∧ (∀ k (hk : k < st8.1.length), agentOK s st8.2 u st8.1[k])
  ∧ (∀ u2 t2, countKey st8.2 u2 t2 ≠ countKey s u2 t2 → u2 = u ∧ some t2 ∈ RL)
  ∧ userRows st8.2 u = userRows s u + st8.1.countP agentInserted

/-- The instants today's slots resolve to (invalid slots resolve to none and
spawn closures that do nothing). -/
def resolvedList (now : Int) (tz : String) (times : List String) : List Int :=
  times.filterMap (fun slot => parseTimeToUTCISO slot tz now)

/-- The dedup-key invariant: at most one ReminderInstance per
(user, scheduled_at) pair. -/
def atMostOnePerKey (s : List Nudge) : Prop := ∀ u t, countKey s u t ≤ 1

/-! ## Concurrent materialization (claim C2): the ensure step split into its
two storage operations.  The check (lines 104-109) and the insert (lines
112-116) are separate round-trips to the store, and the schema defines no
unique constraint on (user_id, scheduled_at) - the insert succeeds
unconditionally.  Two overlapping invocations are modelled as two agents
each running check-then-conditional-insert, interleaved by a schedule. -/

/-- State of two interleaved ensure-step invocations for one slot: the store
plus each agent's recorded check outcome and completion flag. -/
structure RaceState where
  store : List Nudge
  aSeen : Option Bool
  aDone : Bool
  bSeen : Option Bool
  bDone : Bool

/-- One agent acts: first action performs the existence check and records its
outcome; second action inserts exactly when the recorded check saw no row
(the insert is unconditional at the storage layer - no unique constraint). -/
def agentTick (u : String) (t : Int) (seen : Option Bool) (dn : Bool)
    (st : List Nudge) : List Nudge × Option Bool × Bool :=
  match seen, dn with
  | none, _ => (st, some (existsNudge st u t), false)
  | some e, false => ((if e then st else st ++ [mkNudge u t]), some e, true)
  | some e, true => (st, some e, true)

/-- Schedule one step: `true` lets agent A act, `false` agent B. -/
def raceStep (u : String) (t : Int) (rs : RaceState) (who : Bool) : RaceState :=
  if who then
    let r := agentTick u t rs.aSeen rs.aDone rs.store
    { rs with store := r.1, aSeen := r.2.1, aDone := r.2.2 }
  else
    let r := agentTick u t rs.bSeen rs.bDone rs.store
    { rs with store := r.1, bSeen := r.2.1, bDone := r.2.2 }

/-- Run two interleaved ensure-step invocations for the same (user, slot)
under a schedule, starting from a store. -/
def raceRun (u : String) (t : Int) (sched : List Bool) (s : List Nudge) :
    RaceState :=
  sched.foldl (raceStep u t) ⟨s, none, false, none, false⟩

/-! ## Nudge Dispatcher (nudges route, lines 126-221) -/

/-- A row of the `profiles` table in the fields the cron routes select. -/
structure ProfileRow where
  id : String
  email : Option String
  name : Option String
deriving DecidableEq

/-- The due-and-unsent selection predicate of the dispatch query (lines
128-132): `scheduled_at <= now` and `sent_at` is null.  Status is not
consulted. -/
def dueFilter (nowMs : Int) (n : Nudge) : Bool :=
  decide (n.scheduled_at ≤ nowMs) && n.sent_at.isNone

/-- The dispatch query: all rows passing the due-and-unsent filter. -/
def dispatchSelect (nowMs : Int) (s : List Nudge) : List Nudge :=
  s.filter (dueFilter nowMs)

/-- The address the dispatcher mails to (lines 141-142):
`profiles.find(x => x.id === userId)?.email ?? ""`. -/
def emailOf (profiles : List ProfileRow) (uid : String) : String :=
  match profiles.find? (fun p => decide (p.id = uid)) with
  | some p => p.email.getD ""
  | none => ""

/-- Processing of one due nudge (lines 139-220): build the owner's snapshot;
with a non-empty address attempt delivery - on success set `sent_at`, status
`sent` and attach the payload (line 206), on failure set status `failed`
only (line 212); with no address set status `failed` only (line 217).
`sendOk` is the outcome of the mail collaborator, keyed by nudge id. -/
def processDueNudge (profiles : List ProfileRow) (tasksAll : List TaskRow)
    (sendOk : String → Bool) (nowMs : Int) (n : Nudge) : Nudge :=
  let email := emailOf profiles n.user_id
  let myTasks := tasksAll.filter (fun t => decide (t.owner_id = n.user_id))
  let payload := buildSnapshot nowMs myTasks
  if email = "" then { n with status := NudgeStatus.failed }
  else if sendOk n.id then
    { n with sent_at := some nowMs, status := NudgeStatus.sent,
             payload := some payload }
  else { n with status := NudgeStatus.failed }

/-- The dispatch sweep: every due row is rewritten by its processing outcome
(the per-row updates go through the uuid primary key `id`, which the schema
keeps unique, so the sweep acts row-wise); rows not due are untouched. -/
def dispatchDue (profiles : List ProfileRow) (tasksAll : List TaskRow)
    (sendOk : String → Bool) (nowMs : Int) (s : List Nudge) : List Nudge :=
  s.map (fun n => if dueFilter nowMs n then
    processDueNudge profiles tasksAll sendOk nowMs n else n)

/-- A mail collaborator that fails every delivery (used to instantiate
delivery-failure statements on concrete inputs). -/
def alwaysFailMail : String → Bool := fun _ => false

/-! ## Report Aggregator (reports route, lines 44-221; `manager_reports`
table of the schema, lines 40-49 - primary key on `id` only) -/

/-- The `report_status` enum of the schema. -/
inductive ReportStatus where
  | scheduled
  | sent
  | failed
deriving DecidableEq

/-- Per-team-member stats of the daily report (reports route, lines 98-107).
The source key `open` is rendered `openTasks`. -/
structure MemberStats where
  name : String
  completedToday : Nat
  openTasks : Nat
  overdue : Nat
  dueSoon : Nat
deriving DecidableEq

/-- The `summary` jsonb payload: the report date and the per-user stats. -/
structure ReportSummary where
  date : Int
  perUser : List (String × MemberStats)
deriving DecidableEq

/-- A row of the `manager_reports` table.  The uuid primary key is modelled
as a numeric row identity. -/
structure ManagerReport where
  id : Nat
  manager_id : String
  report_date : Int
  sent_at : Option Int
  status : ReportStatus
  summary : Option ReportSummary
deriving DecidableEq

/-- JavaScript `a || b` on a nullable string: the fallback is taken when the
value is null or empty. -/
def jsFalsyOr (o : Option String) (dflt : String) : String :=
  match o with
  | some s => if s = "" then dflt else s
  | none => dflt

/-- Display name of a team member (line 113):
`member.name || member.email || "Unknown"`. -/
def memberName (m : ProfileRow) : String :=
  jsFalsyOr m.name (jsFalsyOr m.email "Unknown")

/-- Apply one task to its owner's stats (reports route, lines 121-142):
completed-today counts done tasks last updated on today's UTC date; open
tasks are classified overdue when due end-of-day is before now, else
due-soon when `floor((due - todayEnd) / 1 day)` is 0 or 1. -/
def updateStats (nowMs today todayEnd : Int) (st : MemberStats) (t : TaskRow) :
    MemberStats :=
  let isDone := t.status = TaskStatus.done
  let updatedDate := t.updated_at.ediv 86400000
  let st1 := if isDone ∧ updatedDate = today then
    { st with completedToday := st.completedToday + 1 } else st
  if isDone then st1
  else
    let st2 := { st1 with openTasks := st1.openTasks + 1 }
    let due := endOfDueDayMs t.due_date
    if due < nowMs then { st2 with overdue := st2.overdue + 1 }
    else
      let diffDays := (due - todayEnd).ediv 86400000
      if 0 ≤ diffDays ∧ diffDays ≤ 1 then
        { st2 with dueSoon := st2.dueSoon + 1 }
      else st2

/-- Apply one task to the per-user table; tasks whose owner is not in the
table are skipped (`if (!user) continue`, line 123). -/
def bumpTask (nowMs today todayEnd : Int)
    (acc : List (String × MemberStats)) (t : TaskRow) :
    List (String × MemberStats) :=
  acc.map (fun p =>
    if p.1 = t.owner_id then (p.1, updateStats nowMs today todayEnd p.2 t)
    else p)

/-- The summary the aggregator composes for a manager (lines 97-148): zeroed
stats for each team member, folded over the team's tasks. -/
def computeSummary (team : List ProfileRow) (tasks : List TaskRow)
    (nowMs : Int) : ReportSummary :=
  let today := utcDayOf nowMs
  let todayEnd := todayEndMs today
  let init := team.map (fun m => (m.id, (⟨memberName m, 0, 0, 0, 0⟩ : MemberStats)))
  { date := today, perUser := tasks.foldl (bumpTask nowMs today todayEnd) init }

/-- One manager's aggregation pass (lines 64-215): with an empty team no
report row is written (only a cadence email is sent); otherwise select the
existing row for (manager, today) and update it through its `id`, or insert
a fresh row with status `sent` and the summary (lines 150-171).  `freshId`
stands for the uuid the database would mint for an insert. -/
def runReportForManager (m : String) (team : List ProfileRow)
    (tasks : List TaskRow) (nowMs : Int) (freshId : Nat)
    (store : List ManagerReport) : List ManagerReport :=
  if team.isEmpty then store
  else
    let today := utcDayOf nowMs
    let summary := computeSummary team tasks nowMs
    match store.find? (fun r => decide (r.manager_id = m) && decide (r.report_date = today)) with
    | some ex =>
      store.map (fun r =>
        if r.id = ex.id then
          { r with summary := some summary, status := ReportStatus.sent,
                   sent_at := some nowMs }
        else r)
    | none =>
      store ++ [{ id := freshId, manager_id := m, report_date := today,
                  sent_at := some nowMs, status := ReportStatus.sent,
                  summary := some summary }]

/-- The rows of the report store keyed by (manager, date). -/
def reportRowsFor (store : List ManagerReport) (m : String) (d : Int) :
    List ManagerReport :=
  store.filter (fun r => decide (r.manager_id = m) && decide (r.report_date = d))

/-! ## Acknowledgement Verifier (src/unnamed/part_005) -/

/-- Stand-in for the keyed digest
`crypto.createHmac("sha256", secret).update(id).digest("hex")`: an opaque
keyed mixing function rendered as exactly 64 hexadecimal characters.  The
claims depend only on the digest being a deterministic keyed function of the
id with a fixed 64-character output, which this preserves. -/
def mixDigest (s : String) : Nat :=
  s.toList.foldl (fun a c => (a * 16777619 + c.toNat) % (2 ^ 256)) 2166136261

/-- Hexadecimal digit characters. -/
def hexDigit (n : Nat) : Char :=
  if n < 10 then Char.ofNat (48 + n) else Char.ofNat (87 + n % 16)

/-- Render a number as exactly 64 hexadecimal characters (most significant
first, zero padded). -/
def hexDigest64 (n : Nat) : String :=
  String.mk ((List.range 64).map (fun k => hexDigit ((n / 16 ^ (63 - k)) % 16)))

/-- Keyed MAC of a message under a secret (HMAC-SHA256 hex stand-in). -/
def hmacHex (secret msg : String) : String :=
  hexDigest64 (mixDigest (secret ++ "|" ++ msg))

/-- `buildAckToken` (nudges route, lines 22-25) and the `expected` value of
`verifyToken` (part_005, lines 5-9): the keyed MAC of the instance id under
the server ack secret (`ACK_SECRET`, falling back to "dev-ack-secret"; the
model uses the fallback, the claims are insensitive to the secret value). -/
def buildAckToken (id : String) : String := hmacHex "dev-ack-secret" id

/-- `verifyToken` (part_005, lines 5-9): recompute the MAC and compare with
`crypto.timingSafeEqual`.  `timingSafeEqual` throws a `RangeError` when the
two buffers differ in byte length; that exceptional exit is the `error`
branch.  Otherwise it returns the equality verdict (its constant-time
execution has no observable counterpart in this model). -/
def verifyToken (id token : String) : Except Unit Bool :=
  let expected := buildAckToken id
  if expected.utf8ByteSize = token.utf8ByteSize then
    Except.ok (decide (expected = token))
  else Except.error ()

/-- JavaScript falsiness of a nullable query parameter: absent or empty. -/
def jsFalsyStr (o : Option String) : Bool :=
  match o with
  | none => true
  | some s => decide (s = "")

/-- Observable outcome of the acknowledgement endpoint: the confirmation
page (HTTP 200), the generic rejection page (HTTP 400), or an uncaught
exception propagating out of the handler (the framework's error response). -/
inductive AckOutcome where
  | okPage
  | rejectPage
  | raised
deriving DecidableEq

/-- The acknowledgement endpoint GET (part_005, lines 11-29): reject when
`i` or `t` is missing/empty or the token verdict is false; propagate the
`timingSafeEqual` exception; on a valid token set `acknowledged_at` and
status `acknowledged` on every row whose `id` matches, whatever its current
status.  Returns the outcome paired with the updated store. -/
def ackRoute (nowMs : Int) (store : List Nudge) (i t : Option String) :
    AckOutcome × List Nudge :=
  if jsFalsyStr i || jsFalsyStr t then (AckOutcome.rejectPage, store)
  else
    let id := i.getD ""
    let token := t.getD ""
    match verifyToken id token with
    | Except.error _ => (AckOutcome.raised, store)
    | Except.ok false => (AckOutcome.rejectPage, store)
    | Except.ok true =>
      (AckOutcome.okPage,
        store.map (fun n =>
          if n.id = id then
            { n with acknowledged_at := some nowMs,
                     status := NudgeStatus.acknowledged }
          else n))

/-! ## Theorems -/

set_option maxRecDepth 10000

/-- Sanity anchor for the calendar embedding: the epoch date. -/
theorem daysFromCivil_epoch : daysFromCivil 1970 1 1 = 0 := by decide

/-- Sanity anchor: 2024-06-10 09:00 New York falls inside daylight saving. -/
theorem nyDst_midJune2024 :
    nyInDstLocal (daysFromCivil 2024 6 10 * 1440 + 540) = true := by decide

/-- Sanity anchor: 2024-01-15 09:00 New York is outside daylight saving. -/
theorem nyDst_midJanuary2024 :
    nyInDstLocal (daysFromCivil 2024 1 15 * 1440 + 540) = false := by decide

/-- Characterisation of the dispatch query (shared helper): a row is selected
exactly when it is in the store, scheduled at or before now, and unsent. -/
lemma mem_dispatchSelect (nowMs : Int) (s : List Nudge) (n : Nudge) :
    n ∈ dispatchSelect nowMs s ↔
      n ∈ s ∧ n.scheduled_at ≤ nowMs ∧ n.sent_at = none := by
  simp [dispatchSelect, dueFilter, List.mem_filter, Option.isNone_iff_eq_none,
    and_assoc]

/-- C3: the dispatch step selects exactly the due-and-unsent instances: a
ReminderInstance is selected iff its `scheduled_at` is at most now and its
`sent_at` is null; hence a future instance is never selected and an instance
with `sent_at` set is never re-sent. -/
theorem dispatch_selects_due_unsent (nowMs : Int) (s : List Nudge) (n : Nudge) :
    n ∈ dispatchSelect nowMs s ↔
      n ∈ s ∧ n.scheduled_at ≤ nowMs ∧ n.sent_at = none :=
  mem_dispatchSelect nowMs s n

/-- C4: the snapshot classifier contradicts the specified due-soon window.
At `now = 2024-06-10T12:00:00Z` a todo task due 2024-06-10 is not overdue and
the specification's formula (end-of-day normalised to 23:59:59 on both
sides, as in testable property 3: due today => due-soon) classifies it
due-soon, but the source computes `todayEnd` at 23:59:59.999 while the due
cutoff is 23:59:59, so `floor((due - todayEnd)/1 day) = -1` and the task is
not counted due-soon; dually a task due 2024-06-12 (neither per the
specification) gets `floor = 1` and is counted due-soon. -/
theorem dueSoon_window_shifted_by_999ms :
    isOverdueCron (daysFromCivil 2024 6 10 * 86400000 + 43200000)
      ⟨"t1", "u1", "Task one", daysFromCivil 2024 6 10, TaskStatus.todo, 0⟩ = false
    ∧ isDueSoonCron (daysFromCivil 2024 6 10 * 86400000 + 43200000)
      ⟨"t1", "u1", "Task one", daysFromCivil 2024 6 10, TaskStatus.todo, 0⟩ = false
    ∧ dueSoonSpec (daysFromCivil 2024 6 10 * 86400000 + 43200000)
      ⟨"t1", "u1", "Task one", daysFromCivil 2024 6 10, TaskStatus.todo, 0⟩ = true
    ∧ isDueSoonCron (daysFromCivil 2024 6 10 * 86400000 + 43200000)
      ⟨"t2", "u1", "Task two", daysFromCivil 2024 6 12, TaskStatus.todo, 0⟩ = true
    ∧ dueSoonSpec (daysFromCivil 2024 6 10 * 86400000 + 43200000)
      ⟨"t2", "u1", "Task two", daysFromCivil 2024 6 12, TaskStatus.todo, 0⟩ = false := by
  decide

/-- C5: for every reference instant, slot "09:00" in zone "UTC" resolves to
exactly 09:00 UTC of the reference UTC day, and slot "09:00" in zone
"America/New_York" resolves to 13:00 UTC (46800000 ms into the day) of the
New York calendar day when daylight saving is in effect at that local
morning, and to 14:00 UTC (50400000 ms) otherwise. -/
theorem slot_0900_resolution (now : Int) :
    parseTimeToUTCISO "09:00" "UTC" now
      = some (utcDayOf now * 86400000 + 32400000)
    ∧ parseTimeToUTCISO "09:00" "America/New_York" now
      = some (nyLocalDay now * 86400000 +
          (if nyInDstLocal (nyLocalDay now * 1440 + 540) then 46800000
           else 50400000)) := by
  constructor
  · have hu : parseTimeToUTCISO "09:00" "UTC" now
        = some (((now + 0 * 60000).ediv 86400000 * 1440 + 9 * 60 + 0 - 0) * 60000) := rfl
    refine hu.trans ?_
    congr 1
    have hz : now + 0 * 60000 = now := by ring
    rw [hz]
    unfold utcDayOf
    ring
  · have hn : parseTimeToUTCISO "09:00" "America/New_York" now
        = some (((now + nyZone.utcOffsetMin (now.ediv 60000) * 60000).ediv 86400000 * 1440 + 9 * 60 + 0
            - nyZone.localOffsetMin ((now + nyZone.utcOffsetMin (now.ediv 60000) * 60000).ediv 86400000 * 1440 + 9 * 60 + 0)) * 60000) := rfl
    refine hn.trans ?_
    congr 1
    have hday : (now + nyZone.utcOffsetMin (now.ediv 60000) * 60000).ediv 86400000 = nyLocalDay now := rfl
    rw [hday]
    have h540 : nyLocalDay now * 1440 + 9 * 60 + 0 = nyLocalDay now * 1440 + 540 := by ring
    rw [h540]
    have hoff : nyZone.localOffsetMin (nyLocalDay now * 1440 + 540)
        = if nyInDstLocal (nyLocalDay now * 1440 + 540) then (-240 : Int) else -300 := rfl
    rw [hoff]
    cases hdst : nyInDstLocal (nyLocalDay now * 1440 + 540)
    · simp only [hdst, Bool.false_eq_true, if_false]
      ring
    · simp only [hdst, if_true]
      ring

/-- C10 counterexample: `parseTimeToUTCISO` takes only (localTime, timezone)
in the source and reads the current instant from the global clock
(`DateTime.now()`, threaded here as the third argument).  With the
source-level arguments fixed, two calls made with different ambient clock
readings return different instants, so the resolver is not a function of an
explicit three-input signature - the clock is an implicit input. -/
theorem parse_reads_ambient_clock :
    parseTimeToUTCISO "09:00" "UTC" 0 = some 32400000
    ∧ parseTimeToUTCISO "09:00" "UTC" 86400000 = some 118800000
    ∧ (32400000 : Int) ≠ 118800000 := by
  refine ⟨rfl, rfl, by decide⟩

/-- C10 amended: the resolver is side-effect free and deterministic in
(localTime, timezone, ambient clock reading), and depends on the clock only
through the local calendar day it induces in the resolved zone: two clock
readings with the same local day yield the same resolved instant. -/
theorem parse_determined_by_clock_day (l z : String) (n1 n2 : Int)
    (h : localDayOf z n1 = localDayOf z n2) :
    parseTimeToUTCISO l z n1 = parseTimeToUTCISO l z n2 := by
  cases hp : parseHHMM l with
  | none => simp [parseTimeToUTCISO, hp]
  | some hm =>
    obtain ⟨hh, mm⟩ := hm
    cases hz : lookupZone (if z = "" then "UTC" else z) with
    | none => simp [parseTimeToUTCISO, hp, hz]
    | some zo =>
      simp only [localDayOf, hz, Option.some.injEq] at h
      simp only [parseTimeToUTCISO, hp, hz]
      rw [h]

/-- C10 witness: two clock readings one hour apart on the same UTC day give
the same resolved instant. -/
theorem parse_determined_by_clock_day_witness :
    localDayOf "UTC" 0 = localDayOf "UTC" 3600000
    ∧ parseTimeToUTCISO "09:00" "UTC" 0 = parseTimeToUTCISO "09:00" "UTC" 3600000 :=
  ⟨by decide, parse_determined_by_clock_day "09:00" "UTC" 0 3600000 (by decide)⟩

/-- Existence probes distribute over store append. -/
lemma existsNudge_append (s1 s2 : List Nudge) (u : String) (t : Int) :
    existsNudge (s1 ++ s2) u t = (existsNudge s1 u t || existsNudge s2 u t) := by
  simp [existsNudge, List.any_append]

/-- The freshly inserted row is found by its own key probe. -/
lemma existsNudge_mk_self (u : String) (t : Int) :
    existsNudge [mkNudge u t] u t = true := by
  simp [existsNudge, mkNudge]

/-- Key counts distribute over store append. -/
lemma countKey_append (s1 s2 : List Nudge) (u : String) (t : Int) :
    countKey (s1 ++ s2) u t = countKey s1 u t + countKey s2 u t := by
  simp [countKey, List.filter_append]

/-- A key count is zero exactly when the existence probe fails. -/
lemma countKey_eq_zero_iff (s : List Nudge) (u : String) (t : Int) :
    countKey s u t = 0 ↔ existsNudge s u t = false := by
  simp [countKey, existsNudge, List.length_eq_zero, List.filter_eq_nil_iff,
    List.any_eq_true]

/-- Key count of the singleton insert. -/
lemma countKey_mk (u : String) (t : Int) (u2 : String) (t2 : Int) :
    countKey [mkNudge u t] u2 t2 = if u = u2 ∧ t = t2 then 1 else 0 := by
  by_cases h1 : u = u2 <;> by_cases h2 : t = t2 <;>
    simp [countKey, mkNudge, List.filter, h1, h2]

/-- User row counts distribute over store append. -/
lemma userRows_append (s1 s2 : List Nudge) (u : String) :
    userRows (s1 ++ s2) u = userRows s1 u + userRows s2 u := by
  simp [userRows, List.filter_append]

/-- The inserted row counts once for its user. -/
lemma userRows_mk (u : String) (t : Int) : userRows [mkNudge u t] u = 1 := by
  simp [userRows, mkNudge]

/-- C2 counterexample: with an empty store, the interleaving where both
invocations run their existence check before either inserts leaves two
ReminderInstance rows for the same (user, scheduled_at) slot - both
concurrent invocations inserted. -/
theorem ensure_race_counterexample :
    countKey (raceRun "u1" 32400000 [true, false, true, false] []).store
      "u1" 32400000 = 2 := by
  decide

/-- C2 amended: the dedup is an application-level existence check followed by
a plain insert, and the schema has no unique constraint on
(user, scheduled_at), so the insert is unconditional at the storage layer;
whenever the key is absent, the interleaving check-A, check-B, insert-A,
insert-B of two overlapping invocations inserts the slot twice, violating
the at-most-one-per-key invariant. -/
theorem ensure_race_duplicates (u : String) (t : Int) (s : List Nudge)
    (h : existsNudge s u t = false) :
    countKey (raceRun u t [true, false, true, false] s).store u t = 2
    ∧ ¬ atMostOnePerKey (raceRun u t [true, false, true, false] s).store := by
  have hrun : (raceRun u t [true, false, true, false] s).store
      = s ++ [mkNudge u t] ++ [mkNudge u t] := by
    simp [raceRun, List.foldl, raceStep, agentTick, h]
  have hcount : countKey (raceRun u t [true, false, true, false] s).store u t = 2 := by
    rw [hrun, countKey_append, countKey_append, countKey_mk,
      (countKey_eq_zero_iff s u t).mpr h, if_pos ⟨rfl, rfl⟩]
  refine ⟨hcount, fun hall => ?_⟩
  have := hall u t
  omega

/-- C2 witness: the race materialises the 09:00 slot twice from an empty
store. -/
theorem ensure_race_duplicates_witness :
    existsNudge [] "u1" 540 = false
    ∧ (countKey (raceRun "u1" 540 [true, false, true, false] []).store "u1" 540 = 2
       ∧ ¬ atMostOnePerKey (raceRun "u1" 540 [true, false, true, false] []).store) :=
  ⟨by decide, ensure_race_duplicates "u1" 540 [] (by decide)⟩

/-- C6: a due instance whose owner has no deliverable address or whose
delivery fails is set to status `failed` with `sent_at` left null, and since
the due-query filters only on `scheduled_at` and null `sent_at` - never on
status - the same instance is selected again by any later dispatch sweep
(retried every invocation). -/
theorem failed_dispatch_is_retried (profiles : List ProfileRow)
    (tasksAll : List TaskRow) (sendOk : String → Bool) (nowMs now2 : Int)
    (store : List Nudge) (n : Nudge)
    (hmem : n ∈ store) (hdue : dueFilter nowMs n = true)
    (hfail : emailOf profiles n.user_id = "" ∨ sendOk n.id = false) :
    (processDueNudge profiles tasksAll sendOk nowMs n).status = NudgeStatus.failed
    ∧ (processDueNudge profiles tasksAll sendOk nowMs n).sent_at = none
    ∧ (n.scheduled_at ≤ now2 →
        processDueNudge profiles tasksAll sendOk nowMs n
          ∈ dispatchSelect now2 (dispatchDue profiles tasksAll sendOk nowMs store)) := by
  have hsent : n.sent_at = none := by
    simp [dueFilter, Option.isNone_iff_eq_none] at hdue
    exact hdue.2
  have hproc : processDueNudge profiles tasksAll sendOk nowMs n
      = { n with status := NudgeStatus.failed } := by
    unfold processDueNudge
    rcases hfail with hf | hf
    · simp [hf]
    · by_cases he : emailOf profiles n.user_id = ""
      · simp [he]
      · simp [he, hf]
  refine ⟨by rw [hproc], by rw [hproc]; exact hsent, fun hle => ?_⟩
  apply (mem_dispatchSelect now2 _ _).mpr
  refine ⟨?_, ?_, ?_⟩
  · unfold dispatchDue
    have hfn : processDueNudge profiles tasksAll sendOk nowMs n
        = (fun m => if dueFilter nowMs m then
            processDueNudge profiles tasksAll sendOk nowMs m else m) n := by
      simp [hdue]
    rw [hfn]
    exact List.mem_map_of_mem _ hmem
  · rw [hproc]
    exact hle
  · rw [hproc]
    exact hsent

/-- C6 witness: a user without a profile row (hence no address) whose due
instance fails and is re-selected ten milliseconds later. -/
theorem failed_dispatch_is_retried_witness :
    (⟨"n1", "u1", 5, none, none, NudgeStatus.scheduled, none⟩ : Nudge)
      ∈ ([⟨"n1", "u1", 5, none, none, NudgeStatus.scheduled, none⟩] : List Nudge)
    ∧ dueFilter 10 ⟨"n1", "u1", 5, none, none, NudgeStatus.scheduled, none⟩ = true
    ∧ ((processDueNudge [] [] alwaysFailMail 10
          ⟨"n1", "u1", 5, none, none, NudgeStatus.scheduled, none⟩).status
            = NudgeStatus.failed
       ∧ (processDueNudge [] [] alwaysFailMail 10
          ⟨"n1", "u1", 5, none, none, NudgeStatus.scheduled, none⟩).sent_at = none
       ∧ ((⟨"n1", "u1", 5, none, none, NudgeStatus.scheduled, none⟩ : Nudge).scheduled_at ≤ 20 →
          processDueNudge [] [] alwaysFailMail 10
            ⟨"n1", "u1", 5, none, none, NudgeStatus.scheduled, none⟩
            ∈ dispatchSelect 20 (dispatchDue [] [] alwaysFailMail 10
              [⟨"n1", "u1", 5, none, none, NudgeStatus.scheduled, none⟩]))) :=
  ⟨by decide, by decide,
   failed_dispatch_is_retried [] [] alwaysFailMail 10 20
     [⟨"n1", "u1", 5, none, none, NudgeStatus.scheduled, none⟩]
     ⟨"n1", "u1", 5, none, none, NudgeStatus.scheduled, none⟩
     (by decide) (by decide) (Or.inl (by decide))⟩

/-- C7: for a manager with a nonempty team and no report row yet for the
day, running the aggregator twice on the same UTC date leaves exactly one
ManagerReport row keyed by (manager, date); the second run overwrites the
first row's summary, status and sent instant (the surviving summary is the
one computed from the task state at the second run) instead of inserting a
duplicate. -/
theorem report_upsert_single_row (m : String) (team : List ProfileRow)
    (tasks1 tasks2 : List TaskRow) (now1 now2 : Int) (id1 id2 : Nat)
    (store : List ManagerReport)
    (hteam : team ≠ [])
    (hday : utcDayOf now1 = utcDayOf now2)
    (hnone : reportRowsFor store m (utcDayOf now2) = [])
    (hid : ∀ r ∈ store, r.id ≠ id1) :
    (reportRowsFor
        (runReportForManager m team tasks2 now2 id2
          (runReportForManager m team tasks1 now1 id1 store)) m
        (utcDayOf now2)).map (fun r => (r.summary, r.status, r.sent_at))
      = [(some (computeSummary team tasks2 now2), ReportStatus.sent,
          some now2)] := by
  have hne : team.isEmpty = false := by
    cases team
    · exact absurd rfl hteam
    · rfl
  have hfilter : ∀ x ∈ store,
      ¬((decide (x.manager_id = m) && decide (x.report_date = utcDayOf now2)) = true) :=
    List.filter_eq_nil_iff.mp hnone
  have hfind1 : store.find?
      (fun r => decide (r.manager_id = m) && decide (r.report_date = utcDayOf now1))
      = none := by
    rw [hday]
    exact List.find?_eq_none.mpr hfilter
  have hrun1 : runReportForManager m team tasks1 now1 id1 store
      = store ++ [({ id := id1,
                     manager_id := m,
                     report_date := utcDayOf now1,
                     sent_at := some now1,
                     status := ReportStatus.sent,
                     summary := some (computeSummary team tasks1 now1) } : ManagerReport)] := by
    unfold runReportForManager
    simp [hne, hfind1]
  rw [hday] at hrun1
  have hfindR1 : (store ++ [({ id := id1,
                               manager_id := m,
                               report_date := utcDayOf now2,
                               sent_at := some now1,
                               status := ReportStatus.sent,
                               summary := some (computeSummary team tasks1 now1) } : ManagerReport)]).find?
      (fun r => decide (r.manager_id = m) && decide (r.report_date = utcDayOf now2))
      = some ({ id := id1,
                manager_id := m,
                report_date := utcDayOf now2,
                sent_at := some now1,
                status := ReportStatus.sent,
                summary := some (computeSummary team tasks1 now1) } : ManagerReport) := by
    rw [List.find?_append, List.find?_eq_none.mpr hfilter]
    simp [List.find?]
  have hrun2 : runReportForManager m team tasks2 now2 id2
      (runReportForManager m team tasks1 now1 id1 store)
      = store ++ [({ id := id1,
                     manager_id := m,
                     report_date := utcDayOf now2,
                     sent_at := some now2,
                     status := ReportStatus.sent,
                     summary := some (computeSummary team tasks2 now2) } : ManagerReport)] := by
    rw [hrun1]
    unfold runReportForManager
    simp only [hne, Bool.false_eq_true, if_false, hfindR1]
    rw [List.map_append]
    have hstore : store.map (fun r =>
        if r.id = id1 then
          { r with summary := some (computeSummary team tasks2 now2),
                   status := ReportStatus.sent, sent_at := some now2 }
        else r) = store := by
      have hpt : ∀ r ∈ store, (fun r =>
          if r.id = id1 then
            { r with summary := some (computeSummary team tasks2 now2),
                     status := ReportStatus.sent, sent_at := some now2 }
          else r) r = id r := by
        intro r hr
        simp [hid r hr]
      rw [List.map_congr_left hpt, List.map_id]
    simp [hstore]
  rw [hrun2]
  unfold reportRowsFor
  rw [List.filter_append]
  have hnil : List.filter
      (fun r => decide (r.manager_id = m) && decide (r.report_date = utcDayOf now2))
      store = [] := hnone
  rw [hnil]
  simp [List.filter]

/-- C7 witness: a one-member team, first run with no tasks and second run
with one task, from an empty report store on the same UTC day. -/
theorem report_upsert_single_row_witness :
    (([⟨"u1", some "u1@example.com", some "User One"⟩] : List ProfileRow) ≠ [])
    ∧ utcDayOf 0 = utcDayOf 1000
    ∧ (reportRowsFor
        (runReportForManager "m1" [⟨"u1", some "u1@example.com", some "User One"⟩]
          [⟨"t1", "u1", "Task", 0, TaskStatus.todo, 0⟩] 1000 2
          (runReportForManager "m1" [⟨"u1", some "u1@example.com", some "User One"⟩]
            [] 0 1 [])) "m1" (utcDayOf 1000)).map
        (fun r => (r.summary, r.status, r.sent_at))
      = [(some (computeSummary [⟨"u1", some "u1@example.com", some "User One"⟩]
            [⟨"t1", "u1", "Task", 0, TaskStatus.todo, 0⟩] 1000),
          ReportStatus.sent, some 1000)] :=
  ⟨by decide, by decide,
   report_upsert_single_row "m1" [⟨"u1", some "u1@example.com", some "User One"⟩]
     [] [⟨"t1", "u1", "Task", 0, TaskStatus.todo, 0⟩] 0 1000 1 2 []
     (by decide) (by decide) rfl (by simp)⟩

/-- The 64-character digest is never the empty string. -/
lemma hexDigest64_ne_empty (n : Nat) : hexDigest64 n ≠ "" := by
  intro h
  have hdata := congrArg String.data h
  simp [hexDigest64] at hdata

/-- An acknowledgement token is never the empty string. -/
lemma buildAckToken_ne_empty (i : String) : buildAckToken i ≠ "" :=
  hexDigest64_ne_empty (mixDigest ("dev-ack-secret" ++ "|" ++ i))

/-- C8 counterexample: a ReminderInstance that was never sent (status
`scheduled`, `sent_at` null) is marked `acknowledged` by a valid
acknowledgement request - the endpoint never checks the current status. -/
theorem ack_scheduled_instance_counterexample :
    ((ackRoute 7 ([⟨"n9", "u1", 0, none, none, NudgeStatus.scheduled, none⟩] : List Nudge)
        (some "n9") (some (buildAckToken "n9"))).2).map (fun n => n.status)
      = [NudgeStatus.acknowledged]
    ∧ ([⟨"n9", "u1", 0, none, none, NudgeStatus.scheduled, none⟩] : List Nudge).map
        (fun n => (n.status, n.sent_at)) = [(NudgeStatus.scheduled, none)] :=
  ⟨rfl, rfl⟩

/-- C8 amended: on a valid token the Acknowledgement Verifier transitions
the identified instance to `acknowledged` from any current status - the
transition is not restricted to `sent`; in particular a never-sent
(scheduled or failed) instance is marked acknowledged by a valid request. -/
theorem ack_transitions_any_status (nowMs : Int) (store : List Nudge)
    (n : Nudge) (i : String)
    (hmem : n ∈ store) (hid : n.id = i) (hne : i ≠ "") :
    (ackRoute nowMs store (some i) (some (buildAckToken i))).1 = AckOutcome.okPage
    ∧ { n with acknowledged_at := some nowMs,
               status := NudgeStatus.acknowledged }
        ∈ (ackRoute nowMs store (some i) (some (buildAckToken i))).2 := by
  have htok : buildAckToken i ≠ "" := buildAckToken_ne_empty i
  have hverify : verifyToken i (buildAckToken i) = Except.ok true := by
    unfold verifyToken
    simp
  have hroute : ackRoute nowMs store (some i) (some (buildAckToken i))
      = (AckOutcome.okPage,
         store.map (fun m =>
           if m.id = i then
             { m with acknowledged_at := some nowMs,
                      status := NudgeStatus.acknowledged }
           else m)) := by
    unfold ackRoute
    simp [jsFalsyStr, hne, htok, hverify]
  rw [hroute]
  refine ⟨rfl, ?_⟩
  have him : { n with acknowledged_at := some nowMs,
                      status := NudgeStatus.acknowledged }
      = (fun m => if m.id = i then
          { m with acknowledged_at := some nowMs,
                   status := NudgeStatus.acknowledged }
        else m) n := by
    simp [hid]
  rw [him]
  exact List.mem_map_of_mem _ hmem

/-- C8 witness: a concrete scheduled instance acknowledged through its own
valid token. -/
theorem ack_transitions_any_status_witness :
    (⟨"n1", "u1", 0, none, none, NudgeStatus.scheduled, none⟩ : Nudge)
      ∈ ([⟨"n1", "u1", 0, none, none, NudgeStatus.scheduled, none⟩] : List Nudge)
    ∧ ((ackRoute 7 [⟨"n1", "u1", 0, none, none, NudgeStatus.scheduled, none⟩]
          (some "n1") (some (buildAckToken "n1"))).1 = AckOutcome.okPage
       ∧ ({ (⟨"n1", "u1", 0, none, none, NudgeStatus.scheduled, none⟩ : Nudge) with
              acknowledged_at := some 7, status := NudgeStatus.acknowledged })
          ∈ (ackRoute 7 [⟨"n1", "u1", 0, none, none, NudgeStatus.scheduled, none⟩]
              (some "n1") (some (buildAckToken "n1"))).2) :=
  ⟨by decide,
   ack_transitions_any_status 7
     [⟨"n1", "u1", 0, none, none, NudgeStatus.scheduled, none⟩]
     ⟨"n1", "u1", 0, none, none, NudgeStatus.scheduled, none⟩ "n1"
     (by decide) rfl (by decide)⟩

/-- C9 counterexample: for a valid instance id, a non-matching token whose
byte length differs from the digest (here "ab") makes
`crypto.timingSafeEqual` throw, so the endpoint exits with an uncaught
exception rather than returning the generic rejection page; the store is
unchanged. -/
theorem ack_short_token_raises :
    (ackRoute 0 ([⟨"n1", "u1", 0, none, none, NudgeStatus.scheduled, none⟩] : List Nudge)
        (some "n1") (some "ab")).1 = AckOutcome.raised
    ∧ AckOutcome.raised ≠ AckOutcome.rejectPage
    ∧ (ackRoute 0 ([⟨"n1", "u1", 0, none, none, NudgeStatus.scheduled, none⟩] : List Nudge)
        (some "n1") (some "ab")).2
      = ([⟨"n1", "u1", 0, none, none, NudgeStatus.scheduled, none⟩] : List Nudge) :=
  ⟨rfl, by decide, rfl⟩

/-- C9 amended: for every id and every token that is not the keyed MAC of
that id, the endpoint performs no state change and its outcome is
independent of the store contents (so it never reveals whether the id
exists) and is never the confirmation page; the generic rejection page is
returned when the token is missing, empty, or a same-byte-length
non-matching token (e.g. a single flipped bit), while a nonempty token of a
different byte length raises the comparator's exception instead of the
generic rejection. -/
theorem ack_invalid_token_rejected (nowMs : Int) (i t0 : String)
    (s1 s2 : List Nudge) (hi : i ≠ "") (ht : t0 ≠ buildAckToken i) :
    (ackRoute nowMs s1 (some i) (some t0)).2 = s1
    ∧ (ackRoute nowMs s1 (some i) (some t0)).1
        = (ackRoute nowMs s2 (some i) (some t0)).1
    ∧ (ackRoute nowMs s1 (some i) (some t0)).1 ≠ AckOutcome.okPage
    ∧ (t0 ≠ "" → t0.utf8ByteSize = (buildAckToken i).utf8ByteSize →
        (ackRoute nowMs s1 (some i) (some t0)).1 = AckOutcome.rejectPage)
    ∧ (t0 ≠ "" → t0.utf8ByteSize ≠ (buildAckToken i).utf8ByteSize →
        (ackRoute nowMs s1 (some i) (some t0)).1 = AckOutcome.raised)
    ∧ (ackRoute nowMs s1 (some i) none).1 = AckOutcome.rejectPage
    ∧ (ackRoute nowMs s1 (some i) none).2 = s1 := by
  have hnone : ackRoute nowMs s1 (some i) none = (AckOutcome.rejectPage, s1) := by
    unfold ackRoute
    simp [jsFalsyStr]
  by_cases hte : t0 = ""
  · subst hte
    have hr : ∀ s : List Nudge,
        ackRoute nowMs s (some i) (some "") = (AckOutcome.rejectPage, s) := by
      intro s
      unfold ackRoute
      simp [jsFalsyStr]
    refine ⟨by rw [hr s1], by rw [hr s1, hr s2], by rw [hr s1]; simp,
      fun h => absurd rfl h, fun h => absurd rfl h,
      by rw [hnone], by rw [hnone]⟩
  · by_cases hsz : (buildAckToken i).utf8ByteSize = t0.utf8ByteSize
    · have hv : verifyToken i t0 = Except.ok false := by
        unfold verifyToken
        rw [if_pos hsz]
        simp [Ne.symm ht]
      have hr : ∀ s : List Nudge,
          ackRoute nowMs s (some i) (some t0) = (AckOutcome.rejectPage, s) := by
        intro s
        unfold ackRoute
        simp [jsFalsyStr, hi, hte, hv]
      refine ⟨by rw [hr s1], by rw [hr s1, hr s2], by rw [hr s1]; simp,
        fun _ _ => by rw [hr s1], fun _ hc => absurd hsz.symm hc,
        by rw [hnone], by rw [hnone]⟩
    · have hv : verifyToken i t0 = Except.error () := by
        unfold verifyToken
        rw [if_neg hsz]
      have hr : ∀ s : List Nudge,
          ackRoute nowMs s (some i) (some t0) = (AckOutcome.raised, s) := by
        intro s
        unfold ackRoute
        simp [jsFalsyStr, hi, hte, hv]
      refine ⟨by rw [hr s1], by rw [hr s1, hr s2], by rw [hr s1]; simp,
        fun _ hc => absurd hc (fun hc2 => hsz hc2.symm), fun _ _ => by rw [hr s1],
        by rw [hnone], by rw [hnone]⟩

/-- C9 witness: a concrete wrong token against an empty and a nonempty
store. -/
theorem ack_invalid_token_rejected_witness :
    ("id1" ≠ "" ∧ "zz" ≠ buildAckToken "id1")
    ∧ ((ackRoute 3 [] (some "id1") (some "zz")).2 = []
       ∧ (ackRoute 3 [] (some "id1") (some "zz")).1
           = (ackRoute 3 [⟨"id1", "u1", 0, none, none, NudgeStatus.scheduled, none⟩]
               (some "id1") (some "zz")).1
       ∧ (ackRoute 3 [] (some "id1") (some "zz")).1 ≠ AckOutcome.okPage
       ∧ ("zz" ≠ "" → ("zz" : String).utf8ByteSize = (buildAckToken "id1").utf8ByteSize →
           (ackRoute 3 [] (some "id1") (some "zz")).1 = AckOutcome.rejectPage)
       ∧ ("zz" ≠ "" → ("zz" : String).utf8ByteSize ≠ (buildAckToken "id1").utf8ByteSize →
           (ackRoute 3 [] (some "id1") (some "zz")).1 = AckOutcome.raised)
       ∧ (ackRoute 3 [] (some "id1") none).1 = AckOutcome.rejectPage
       ∧ (ackRoute 3 [] (some "id1") none).2 = []) :=
  ⟨⟨by decide, by decide⟩,
   ack_invalid_token_rejected 3 "id1" "zz" []
     [⟨"id1", "u1", 0, none, none, NudgeStatus.scheduled, none⟩]
     (by decide) (by decide)⟩

/-- Writing back the element already at an index leaves a list unchanged. -/
lemma list_set_self {α : Type} (l : List α) (k : Nat) (a : α)
    (h : l[k]? = some a) : l.set k a = l := by
  obtain ⟨hk, hv⟩ := List.getElem?_eq_some_iff.mp h
  apply List.ext_getElem (by simp)
  intro i h1 h2
  rw [List.getElem_set]
  by_cases hki : k = i
  · subst hki
    exact hv.symm ▸ (if_pos rfl)
  · rw [if_neg hki]

/-- A value sitting at two positions, the first strictly below the second,
is counted at least twice. -/
lemma two_le_count_of_lt {α : Type} [BEq α] [LawfulBEq α] (l : List α) (i j : Nat)
    (hij : i < j) (hj : j < l.length) (v : α)
    (h1 : l[i] = v) (h2 : l[j] = v) : 2 ≤ l.count v := by
  have hi : i < l.length := lt_trans hij hj
  have hvt : v ∈ l.take j := by
    have hil : i < (l.take j).length := by
      simp only [List.length_take]
      omega
    have hg : (l.take j)[i] = l[i] := List.getElem_take l
    rw [← h1, ← hg]
    exact List.getElem_mem hil
  have hvd : v ∈ l.drop j := by
    have hdl : 0 < (l.drop j).length := by
      simp only [List.length_drop]
      omega
    have hg : (l.drop j)[0] = l[j + 0] := List.getElem_drop l
    simp only [Nat.add_zero] at hg
    rw [← h2, ← hg]
    exact List.getElem_mem hdl
  have ht : 1 ≤ (l.take j).count v := List.count_pos_iff.mpr hvt
  have hd : 1 ≤ (l.drop j).count v := List.count_pos_iff.mpr hvd
  have := List.count_append v (l.take j) (l.drop j)
  rw [List.take_append_drop] at this
  omega

/-- A value sitting at two distinct positions is counted at least twice. -/
lemma two_le_count_of_ne {α : Type} [BEq α] [LawfulBEq α] (l : List α) (i j : Nat)
    (hi : i < l.length) (hj : j < l.length) (hij : i ≠ j) (v : α)
    (h1 : l[i] = v) (h2 : l[j] = v) : 2 ≤ l.count v := by
  rcases Nat.lt_or_ge i j with h | h
  · exact two_le_count_of_lt l i j h hj v h1 h2
  · exact two_le_count_of_lt l j i (lt_of_le_of_ne h (Ne.symm hij)) hi v h2 h1

/-- Counting through a filterMap: an element counts when it resolves and its
resolution satisfies the predicate. -/
lemma countP_filterMap {α β : Type} (f : α → Option β) (p : β → Bool)
    (l : List α) :
    (l.filterMap f).countP p
      = l.countP (fun a => ((f a).map p).getD false) := by
  induction l with
  | nil => rfl
  | cons a l ih =>
    cases hf : f a with
    | none => simp [List.filterMap_cons, hf, List.countP_cons, ih]
    | some b => simp [List.filterMap_cons, hf, List.countP_cons, ih]

/-- Occurrences of `some t` in the mapped list are occurrences of `t` in the
filterMapped list. -/
lemma count_some_map {α β : Type} [BEq β] [LawfulBEq β] (f : α → Option β) (t : β)
    (l : List α) :
    (l.map f).count (some t) = (l.filterMap f).count t := by
  induction l with
  | nil => rfl
  | cons a l ih =>
    cases hf : f a with
    | none => simp [List.filterMap_cons, hf, List.count_cons, ih]
    | some b => simp [List.filterMap_cons, hf, List.count_cons, ih]

/-- In a duplicate-free list every value occurs at most once. -/
lemma count_le_one_of_nodup {α : Type} [BEq α] [LawfulBEq α] (l : List α)
    (h : l.Nodup) (a : α) : l.count a ≤ 1 := by
  induction l with
  | nil => simp
  | cons b bs ih =>
    have hnb : b ∉ bs := (List.nodup_cons.mp h).1
    have hnd : bs.Nodup := (List.nodup_cons.mp h).2
    rw [List.count_cons]
    by_cases hba : b = a
    · subst hba
      have hz : bs.count b = 0 := List.count_eq_zero.mpr hnb
      simp [hz]
    · have : (b == a) = false := by
        simpa using hba
      simp only [this, if_false]
      simpa using ih hnd

/-- The invariant holds before any agent has run. -/
lemma ensureInv_init (now : Int) (u tz : String) (times : List String)
    (s : List Nudge) :
    ensureInv s u (times.map (fun sl => parseTimeToUTCISO sl tz now))
      (initEnsureAgents now tz times, s) := by
  refine ⟨?_, ?_, ?_, ?_⟩
  · simp [initEnsureAgents, List.map_map, Function.comp]
  · intro k hk
    have hk2 : k < times.length := by simpa [initEnsureAgents] using hk
    simp only [initEnsureAgents, List.getElem_map]
    cases hp : parseTimeToUTCISO (times[k]) tz now with
    | none => simp [agentOK, hp]
    | some t =>
      simp only [agentOK, hp]
      refine ⟨fun _ => trivial, ⟨fun b hb => by simp at hb, ?_⟩⟩
      simp [agentInserted]
  · intro u2 t2 h
    exact absurd rfl h
  · have hz : (initEnsureAgents now tz times).countP agentInserted = 0 :=
      List.countP_eq_zero.mpr (fun ag hag => by
        obtain ⟨sl, hsl, he⟩ := List.mem_map.mp hag
        rw [← he]
        simp [agentInserted])
    rw [hz]
    simp

/-- Every storage round-trip preserves the invocation invariant, provided no
two agents share a resolved instant. -/
lemma ensureInv_step (s : List Nudge) (u : String) (RL : List (Option Int))
    (hcnt : ∀ t : Int, RL.count (some t) ≤ 1)
    (st8 : List EnsureAgent × List Nudge)
    (h : ensureInv s u RL st8) (k : Nat) :
    ensureInv s u RL (ensureRunStep u st8 k) := by
  obtain ⟨ags, st⟩ := st8
  obtain ⟨hres, hok, hframe, hrows⟩ := h
  dsimp only at hres hok hframe hrows
  subst hres
  unfold ensureRunStep
  dsimp only
  cases hget : ags[k]? with
  | none => exact ⟨rfl, hok, hframe, hrows⟩
  | some ag =>
    obtain ⟨hk, hagk⟩ := List.getElem?_eq_some_iff.mp hget
    have hokk := hok k hk
    rw [hagk] at hokk
    obtain ⟨agr, agsn, agdn⟩ := ag
    have hmapset : ∀ a : EnsureAgent, a.res = agr →
        (ags.set k a).map (fun ag => ag.res) = ags.map (fun ag => ag.res) := by
      intro a ha
      rw [List.map_set, ha]
      have hsome : (ags.map (fun ag => ag.res))[k]? = some agr := by
        rw [List.getElem?_eq_some_iff]
        refine ⟨by simpa using hk, ?_⟩
        rw [List.getElem_map, hagk]
      rw [list_set_self _ _ _ hsome]
    cases agr with
    | none =>
      have hseen : agsn = none := by
        simpa [agentOK] using hokk
      subst hseen
      simp only [ensureAgentStep]
      refine ⟨hmapset _ rfl, ?_, hframe, ?_⟩
      · intro j hj
        have hj2 : j < ags.length := by simpa using hj
        rw [List.getElem_set]
        by_cases hkj : k = j
        · rw [if_pos hkj]
          simp [agentOK]
        · rw [if_neg hkj]
          exact hok j hj2
      · rw [List.countP_set _ _ _ _ hk, hagk]
        simp only [agentInserted]
        simpa using hrows
    | some t =>
      obtain ⟨hsd, hsb, hcount⟩ :
          (agsn = none → agdn = false)
          ∧ (∀ b, agsn = some b → b = maybeSingleSees s u t)
          ∧ countKey st u t = countKey s u t
              + (if agentInserted ⟨some t, agsn, agdn⟩ then 1 else 0) := by
        simpa [agentOK] using hokk
      cases agsn with
      | none =>
        have hdone : agdn = false := hsd rfl
        subst hdone
        have hccsame : countKey st u t = countKey s u t := by
          simpa [agentInserted] using hcount
        simp only [ensureAgentStep]
        refine ⟨hmapset _ rfl, ?_, hframe, ?_⟩
        · intro j hj
          have hj2 : j < ags.length := by simpa using hj
          rw [List.getElem_set]
          by_cases hkj : k = j
          · rw [if_pos hkj]
            simp only [agentOK]
            refine ⟨?_, ?_, ?_⟩
            · simp
            · intro b hb
              simp only [Option.some.injEq] at hb
              rw [← hb]
              simp [maybeSingleSees, hccsame]
            · simpa [agentInserted] using hcount
          · rw [if_neg hkj]
            exact hok j hj2
        · rw [List.countP_set _ _ _ _ hk, hagk]
          simp only [agentInserted]
          simpa using hrows
      | some e =>
        cases agdn with
        | true =>
          dsimp only [ensureAgentStep]
          have hsetself : ags.set k ⟨some t, some e, true⟩ = ags :=
            list_set_self ags k _ hget
          rw [hsetself]
          exact ⟨rfl, hok, hframe, hrows⟩
        | false =>
          have hccsame : countKey st u t = countKey s u t := by
            simpa [agentInserted] using hcount
          have hbsee : e = maybeSingleSees s u t := hsb e rfl
          cases e with
          | true =>
            dsimp only [ensureAgentStep]
            simp only [if_true]
            refine ⟨hmapset _ rfl, ?_, hframe, ?_⟩
            · intro j hj
              have hj2 : j < ags.length := by simpa using hj
              rw [List.getElem_set]
              by_cases hkj : k = j
              · rw [if_pos hkj]
                simp only [agentOK]
                refine ⟨?_, ?_, ?_⟩
                · intro hc
                  simp at hc
                · intro b hb
                  simp only [Option.some.injEq] at hb
                  rw [← hb]
                  exact hbsee
                · simpa [agentInserted] using hccsame
              · rw [if_neg hkj]
                exact hok j hj2
            · rw [List.countP_set _ _ _ _ hk, hagk]
              simp only [agentInserted]
              simpa using hrows
          | false =>
            have hkeyne : ∀ j (hj2 : j < ags.length), k ≠ j → ∀ t2 : Int,
                ags[j].res = some t2 → t2 ≠ t := by
              intro j hj2 hkj t2 hja heq
              subst heq
              have hjR : j < (ags.map (fun ag => ag.res)).length := by
                simpa using hj2
              have hkR : k < (ags.map (fun ag => ag.res)).length := by
                simpa using hk
              have hRLj : (ags.map (fun ag => ag.res))[j] = some t2 := by
                rw [List.getElem_map]
                exact hja
              have hRLk : (ags.map (fun ag => ag.res))[k] = some t2 := by
                rw [List.getElem_map, hagk]
              have h2 := two_le_count_of_ne (ags.map (fun ag => ag.res)) k j
                hkR hjR hkj (some t2) hRLk hRLj
              have := hcnt t2
              omega
            dsimp only [ensureAgentStep]
            simp only [Bool.false_eq_true, if_false]
            refine ⟨hmapset _ rfl, ?_, ?_, ?_⟩
            · intro j hj
              have hj2 : j < ags.length := by simpa using hj
              rw [List.getElem_set]
              by_cases hkj : k = j
              · rw [if_pos hkj]
                simp only [agentOK]
                refine ⟨?_, ?_, ?_⟩
                · intro hc
                  simp at hc
                · intro b hb
                  simp only [Option.some.injEq] at hb
                  rw [← hb]
                  exact hbsee
                · have hone : agentInserted ⟨some t, some false, true⟩ = true := by
                    simp [agentInserted]
                  rw [hone]
                  rw [countKey_append, countKey_mk, if_pos ⟨rfl, rfl⟩, hccsame]
                  simp
              · rw [if_neg hkj]
                have hoj := hok j hj2
                cases hrj : ags[j].res with
                | none =>
                  simp only [agentOK, hrj] at hoj ⊢
                  exact hoj
                | some t2 =>
                  have htne : t2 ≠ t := hkeyne j hj2 hkj t2 hrj
                  simp only [agentOK, hrj] at hoj ⊢
                  have hnew : countKey (st ++ [mkNudge u t]) u t2
                      = countKey st u t2 := by
                    rw [countKey_append, countKey_mk,
                      if_neg (fun hc => htne hc.2.symm)]
                    simp
                  exact ⟨hoj.1, hoj.2.1, by rw [hnew]; exact hoj.2.2⟩
            · intro u2 t2 hne
              by_cases hpair : u2 = u ∧ t2 = t
              · refine ⟨hpair.1, ?_⟩
                rw [hpair.2]
                have hkR : k < (ags.map (fun ag => ag.res)).length := by
                  simpa using hk
                have hgk : (ags.map (fun ag => ag.res))[k] = some t := by
                  rw [List.getElem_map, hagk]
                rw [← hgk]
                exact List.getElem_mem hkR
              · have hz : countKey [mkNudge u t] u2 t2 = 0 := by
                  rw [countKey_mk, if_neg (fun hc => hpair ⟨hc.1.symm, hc.2.symm⟩)]
                rw [countKey_append, hz] at hne
                exact hframe u2 t2 (by simpa using hne)
            · rw [List.countP_set _ _ _ _ hk, hagk]
              have hone : agentInserted ⟨some t, some false, true⟩ = true := by
                simp [agentInserted]
              have hzero : agentInserted ⟨some t, some false, false⟩ = false := by
                simp [agentInserted]
              rw [hone, hzero, userRows_append, userRows_mk, hrows]
              simp
              omega

/-- The invariant holds after any schedule of storage round-trips. -/
lemma ensureInv_run (now : Int) (u tz : String) (times : List String)
    (sched : List Nat) (s : List Nudge)
    (hcnt : ∀ t : Int,
      (times.map (fun sl => parseTimeToUTCISO sl tz now)).count (some t) ≤ 1) :
    ensureInv s u (times.map (fun sl => parseTimeToUTCISO sl tz now))
      (ensureToday now u tz times sched s) := by
  unfold ensureToday
  have hfold : ∀ (sc : List Nat) (st8 : List EnsureAgent × List Nudge),
      ensureInv s u (times.map (fun sl => parseTimeToUTCISO sl tz now)) st8 →
      ensureInv s u (times.map (fun sl => parseTimeToUTCISO sl tz now))
        (sc.foldl (ensureRunStep u) st8) := by
    intro sc
    induction sc with
    | nil => exact fun st8 h => h
    | cons a l ih =>
      intro st8 h
      exact ih _ (ensureInv_step s u _ hcnt st8 h a)
  exact hfold sched _ (ensureInv_init now u tz times s)

/-- Reading off a completed invocation: each resolved instant's key count
grows by one exactly when the initial store had no row for it (`maybeSingle`
verdict false); keys outside the user's resolved instants are untouched;
and the user gains one row per resolved instant whose check saw nothing. -/
lemma ensureToday_complete (now : Int) (u tz : String) (times : List String)
    (sched : List Nat) (s : List Nudge)
    (hcnt : ∀ t : Int,
      (times.map (fun sl => parseTimeToUTCISO sl tz now)).count (some t) ≤ 1)
    (hdone : ∀ ag ∈ (ensureToday now u tz times sched s).1, ag.done = true) :
    (∀ t ∈ resolvedList now tz times,
        countKey (ensureToday now u tz times sched s).2 u t
          = countKey s u t + (if maybeSingleSees s u t then 0 else 1))
    ∧ (∀ u2 t2, countKey (ensureToday now u tz times sched s).2 u2 t2
          ≠ countKey s u2 t2 → u2 = u ∧ t2 ∈ resolvedList now tz times)
    ∧ userRows (ensureToday now u tz times sched s).2 u
        = userRows s u
          + ((resolvedList now tz times).filter
              (fun t => !(maybeSingleSees s u t))).length := by
  obtain ⟨hres, hok, hframe, hrows⟩ := ensureInv_run now u tz times sched s hcnt
  have hokm : ∀ ag ∈ (ensureToday now u tz times sched s).1,
      agentOK s (ensureToday now u tz times sched s).2 u ag := by
    intro ag hag
    obtain ⟨kk, hkk, he⟩ := List.mem_iff_getElem.mp hag
    exact he ▸ hok kk hkk
  have hagfact : ∀ ag ∈ (ensureToday now u tz times sched s).1, ∀ t,
      ag.res = some t →
      ag.seen = some (maybeSingleSees s u t)
      ∧ countKey (ensureToday now u tz times sched s).2 u t
          = countKey s u t + (if maybeSingleSees s u t then 0 else 1) := by
    intro ag hag t hrt
    have hmo := hokm ag hag
    have hd := hdone ag hag
    obtain ⟨hsd, hsb, hcount⟩ :
        (ag.seen = none → ag.done = false)
        ∧ (∀ b, ag.seen = some b → b = maybeSingleSees s u t)
        ∧ countKey (ensureToday now u tz times sched s).2 u t
            = countKey s u t
              + (if agentInserted ag then 1 else 0) := by
      simpa [agentOK, hrt] using hmo
    cases hsn : ag.seen with
    | none =>
      rw [hsd hsn] at hd
      cases hd
    | some b =>
      have hb := hsb b hsn
      subst hb
      refine ⟨rfl, ?_⟩
      rw [hcount]
      have : agentInserted ag = !(maybeSingleSees s u t) := by
        simp [agentInserted, hd, hsn]
      rw [this]
      cases hv : maybeSingleSees s u t <;> simp
  refine ⟨?_, ?_, ?_⟩
  · intro t ht
    obtain ⟨sl, hsl, hp⟩ := List.mem_filterMap.mp ht
    have hmem : some t ∈ (ensureToday now u tz times sched s).1.map
        (fun ag => ag.res) := by
      rw [hres]
      exact List.mem_map.mpr ⟨sl, hsl, hp⟩
    obtain ⟨ag, hag, hrt⟩ := List.mem_map.mp hmem
    exact (hagfact ag hag t hrt).2
  · intro u2 t2 hne
    obtain ⟨hu, hmem⟩ := hframe u2 t2 hne
    refine ⟨hu, ?_⟩
    obtain ⟨sl, hsl, hp⟩ := List.mem_map.mp hmem
    exact List.mem_filterMap.mpr ⟨sl, hsl, hp⟩
  · rw [hrows]
    congr 1
    have hpt : ∀ ag ∈ (ensureToday now u tz times sched s).1,
        agentInserted ag
          = ((ag.res.map (fun t => !(maybeSingleSees s u t))).getD false) := by
      intro ag hag
      cases hr : ag.res with
      | none =>
        have hmo := hokm ag hag
        have hs : ag.seen = none := by
          simpa [agentOK, hr] using hmo
        simp [agentInserted, hs, hr]
      | some t =>
        have hsn := (hagfact ag hag t hr).1
        have hd := hdone ag hag
        simp [agentInserted, hd, hsn, hr]
    calc (ensureToday now u tz times sched s).1.countP agentInserted
        = (ensureToday now u tz times sched s).1.countP
            (fun ag => ((ag.res.map (fun t => !(maybeSingleSees s u t))).getD false)) := by
          rw [List.countP_eq_length_filter, List.countP_eq_length_filter,
            List.filter_congr hpt]
      _ = ((ensureToday now u tz times sched s).1.map (fun ag => ag.res)).countP
            (fun o => ((o.map (fun t => !(maybeSingleSees s u t))).getD false)) := by
          rw [List.countP_map]
          rfl
      _ = (times.map (fun sl => parseTimeToUTCISO sl tz now)).countP
            (fun o => ((o.map (fun t => !(maybeSingleSees s u t))).getD false)) := by
          rw [hres]
      _ = (times.filterMap (fun sl => parseTimeToUTCISO sl tz now)).countP
            (fun t => !(maybeSingleSees s u t)) := by
          rw [countP_filterMap, List.countP_map]
          rfl
      _ = ((resolvedList now tz times).filter
            (fun t => !(maybeSingleSees s u t))).length := by
          rw [List.countP_eq_length_filter]
          rfl

/-- C1 counterexample: the distinct configured slots "09:00" and "9:00" both
satisfy the slot regex and resolve to the same instant; under the
interleaving where both closures of one invocation run their existence
check before either insert lands - a schedule `Promise.all` permits - a
single completed invocation creates two rows for the same
(user, scheduled_at) key, violating the invariant the claim asserts is
preserved, and a second completed invocation (whose `maybeSingle` checks
error on the duplicate rows, which the route treats as absence) inserts two
more: four rows where the claim counts two distinct configured slots. -/
theorem ensureToday_distinct_slots_counterexample :
    (∀ ag ∈ (ensureToday 0 "u1" "UTC" ["09:00", "9:00"] [0, 1, 0, 1] []).1,
      ag.done = true)
    ∧ countKey (ensureToday 0 "u1" "UTC" ["09:00", "9:00"] [0, 1, 0, 1] []).2
        "u1" 32400000 = 2
    ∧ ¬ atMostOnePerKey
        (ensureToday 0 "u1" "UTC" ["09:00", "9:00"] [0, 1, 0, 1] []).2
    ∧ (["09:00", "9:00"] : List String).dedup.length = 2
    ∧ userRows (ensureToday 0 "u1" "UTC" ["09:00", "9:00"] [0, 1, 0, 1]
        (ensureToday 0 "u1" "UTC" ["09:00", "9:00"] [0, 1, 0, 1] []).2).2
        "u1" = 4 := by
  refine ⟨by decide, by decide, ?_, by decide, by decide⟩
  intro hall
  exact absurd (hall "u1" 32400000) (by decide)

/-- C1 amended: the per-slot check-then-insert closures of one invocation
run concurrently under `Promise.all`; provided the configured slots resolve
to pairwise distinct instants, then under every interleaving of the per-slot
storage operations, two completed invocations in succession on the same day,
from a store holding no row at any of the resolved instants, create exactly
one ReminderInstance per resolved slot instant (invalid-format slots create
none) and preserve the at-most-one-per-(user, scheduled_at) invariant. -/
theorem ensureToday_twice_materializes_distinct (now : Int) (u tz : String)
    (times : List String) (sched1 sched2 : List Nat) (s : List Nudge)
    (hnodup : (resolvedList now tz times).Nodup)
    (hfresh : ∀ t ∈ resolvedList now tz times, countKey s u t = 0)
    (hinv : atMostOnePerKey s)
    (hdone1 : ∀ ag ∈ (ensureToday now u tz times sched1 s).1, ag.done = true)
    (hdone2 : ∀ ag ∈ (ensureToday now u tz times sched2
        (ensureToday now u tz times sched1 s).2).1, ag.done = true) :
    userRows (ensureToday now u tz times sched2
        (ensureToday now u tz times sched1 s).2).2 u
      = userRows s u + (resolvedList now tz times).length
    ∧ atMostOnePerKey (ensureToday now u tz times sched2
        (ensureToday now u tz times sched1 s).2).2 := by
  have hcnt : ∀ t : Int,
      (times.map (fun sl => parseTimeToUTCISO sl tz now)).count (some t) ≤ 1 := by
    intro t
    rw [count_some_map]
    exact count_le_one_of_nodup _ hnodup t
  obtain ⟨ha1, hb1, hc1⟩ := ensureToday_complete now u tz times sched1 s hcnt hdone1
  have hsee1 : ∀ t ∈ resolvedList now tz times,
      maybeSingleSees s u t = false := by
    intro t ht
    simp [maybeSingleSees, hfresh t ht]
  have hk1 : ∀ t ∈ resolvedList now tz times,
      countKey (ensureToday now u tz times sched1 s).2 u t = 1 := by
    intro t ht
    rw [ha1 t ht, hfresh t ht, hsee1 t ht]
    rfl
  have hr1 : userRows (ensureToday now u tz times sched1 s).2 u
      = userRows s u + (resolvedList now tz times).length := by
    rw [hc1]
    congr 1
    congr 1
    apply List.filter_eq_self.mpr
    intro t ht
    simp [hsee1 t ht]
  obtain ⟨ha2, hb2, hc2⟩ := ensureToday_complete now u tz times sched2
    (ensureToday now u tz times sched1 s).2 hcnt hdone2
  have hsee2 : ∀ t ∈ resolvedList now tz times,
      maybeSingleSees (ensureToday now u tz times sched1 s).2 u t = true := by
    intro t ht
    simp [maybeSingleSees, hk1 t ht]
  have hr2 : userRows (ensureToday now u tz times sched2
      (ensureToday now u tz times sched1 s).2).2 u
      = userRows (ensureToday now u tz times sched1 s).2 u := by
    rw [hc2]
    have hnil : (resolvedList now tz times).filter
        (fun t => !(maybeSingleSees (ensureToday now u tz times sched1 s).2 u t))
        = [] := by
      apply List.filter_eq_nil_iff.mpr
      intro t ht
      simp [hsee2 t ht]
    rw [hnil]
    simp
  constructor
  · rw [hr2, hr1]
  · intro u2 t2
    by_cases h2c : countKey (ensureToday now u tz times sched2
        (ensureToday now u tz times sched1 s).2).2 u2 t2
        = countKey (ensureToday now u tz times sched1 s).2 u2 t2
    · rw [h2c]
      by_cases h1c : countKey (ensureToday now u tz times sched1 s).2 u2 t2
          = countKey s u2 t2
      · rw [h1c]
        exact hinv u2 t2
      · obtain ⟨hu, ht⟩ := hb1 u2 t2 h1c
        subst hu
        rw [hk1 t2 ht]
    · obtain ⟨hu, ht⟩ := hb2 u2 t2 h2c
      subst hu
      rw [ha2 t2 ht, hk1 t2 ht, hsee2 t2 ht]
      simp

/-- C1 witness: the default slots in UTC at the epoch, from an empty store,
both invocations scheduled with all three checks issued before any insert -
a genuinely concurrent interleaving. -/
theorem ensureToday_twice_materializes_distinct_witness :
    (resolvedList 0 "UTC" ["09:00", "13:00", "17:00"]).Nodup
    ∧ (∀ t ∈ resolvedList 0 "UTC" ["09:00", "13:00", "17:00"],
        countKey [] "u1" t = 0)
    ∧ (∀ ag ∈ (ensureToday 0 "u1" "UTC" ["09:00", "13:00", "17:00"]
        [0, 1, 2, 0, 1, 2] []).1, ag.done = true)
    ∧ (userRows (ensureToday 0 "u1" "UTC" ["09:00", "13:00", "17:00"]
          [0, 1, 2, 0, 1, 2]
          (ensureToday 0 "u1" "UTC" ["09:00", "13:00", "17:00"]
            [0, 1, 2, 0, 1, 2] []).2).2 "u1"
        = userRows [] "u1"
          + (resolvedList 0 "UTC" ["09:00", "13:00", "17:00"]).length
       ∧ atMostOnePerKey (ensureToday 0 "u1" "UTC" ["09:00", "13:00", "17:00"]
          [0, 1, 2, 0, 1, 2]
          (ensureToday 0 "u1" "UTC" ["09:00", "13:00", "17:00"]
            [0, 1, 2, 0, 1, 2] []).2).2) :=
  ⟨by decide, by decide, by decide,
   ensureToday_twice_materializes_distinct 0 "u1" "UTC"
     ["09:00", "13:00", "17:00"] [0, 1, 2, 0, 1, 2] [0, 1, 2, 0, 1, 2] []
     (by decide) (by decide) (fun u t => by simp [countKey])
     (by decide) (by decide)⟩
